import Mathlib

/-!
Verification of the article relevance/ranking pipeline of the
agriculture-digest bot (src/processor.py, src/llm_service.py, src/config.py).

The pipeline operates on article records.  The source reads its configuration
from `config.py`: `LANGUAGE` defaults to `'ru'`, so `ContentProcessor.is_russian`
is `True` and the bilingual (Russian + English) keyword list is active;
`DIGEST_CONFIG['max_total_articles']` is `8`.  We embed that configuration.

Python strings are modelled as Lean `String`; Python's `in` substring test
is modelled by an executable substring search `hasSub`; Python's `str.lower()`
is modelled by a character map covering the ASCII and Cyrillic letters used
by the keyword lists.
-/

namespace AgriDigest

/-- An article record.  `src/processor.py` reads the keys `title`, `summary`,
`source`, `link`, `published` with `dict.get` defaulting to `''`; we model an
absent optional key as the empty string, matching Python truthiness. -/
structure Article where
  title : String
  summary : String
  source : String
  link : String
  published : String
deriving DecidableEq, Repr

/-- Python `str.lower()` restricted to the alphabets that occur in the data:
ASCII `A`-`Z` and Cyrillic `А`-`Я`, `Ё`. -/
def pyLowerChar (c : Char) : Char :=
  if 'A' ≤ c ∧ c ≤ 'Z' then Char.ofNat (c.toNat + 32)
  else if 'А' ≤ c ∧ c ≤ 'Я' then Char.ofNat (c.toNat + 32)
  else if c = 'Ё' then 'ё'
  else c

/-- Python `str.lower()` on a whole string. -/
def pyLower (s : String) : String := ⟨s.data.map pyLowerChar⟩

/-- `matchesAt hay needle` holds when `needle` is a prefix of `hay`. -/
def matchesAt : List Char → List Char → Bool
  | _, [] => true
  | [], _ :: _ => false
  | a :: as, b :: bs => a = b && matchesAt as bs

/-- `hasSub hay needle`: `needle` occurs as a contiguous substring of `hay`.
Models Python's `needle in hay`. -/
def hasSub : List Char → List Char → Bool
  | hay, needle =>
    matchesAt hay needle ||
      match hay with
      | [] => false
      | _ :: t => hasSub t needle

/-- Python `needle in haystack` on strings. -/
def pyContains (haystack needle : String) : Bool := hasSub haystack.data needle.data

/-- The bilingual agriculture keyword list from `ContentProcessor.__init__`
(`src/processor.py` lines 25-34, the `is_russian` branch active under the
default configuration `LANGUAGE = 'ru'`). -/
def agriculture_keywords : List String :=
  ["сельское хозяйство", "фермерство", "урожай", "скот", "молочное", "птицеводство",
   "пшеница", "кукуруза", "соя", "рис", "хлопок", "сахар", "кофе",
   "удобрение", "пестицид", "орошение", "сбор урожая", "посадка",
   "продовольственная безопасность", "устойчивое земледелие", "органическое", "точное земледелие",
   "агротех", "сельхозтехника", "трактор", "семена", "зерно", "корм",
   "товар", "рыночная цена", "экспорт", "импорт", "торговля",
   "agriculture", "farming", "crop", "livestock", "dairy", "poultry",
   "wheat", "corn", "soybean", "rice", "cotton", "sugar", "coffee"]

/-- `sum(1 for keyword in kws if keyword in text)`: the number of keywords of
`kws` occurring as substrings of `text`. -/
def keywordCount (kws : List String) (text : String) : Nat :=
  (kws.filter (fun k => pyContains text k)).length

/-- `ContentProcessor._is_agriculture_related` (`src/processor.py` lines 74-87). -/
def is_agriculture_related (article : Article) : Bool :=
  let text_to_check := pyLower (article.title ++ " " ++ article.summary)
  let keyword_count := keywordCount agriculture_keywords text_to_check
  let title_keywords := keywordCount agriculture_keywords (pyLower article.title)
  decide (keyword_count ≥ 2) || decide (title_keywords ≥ 1)

/-- `ContentProcessor.filter_relevant_articles` (`src/processor.py` lines 55-72):
the loop appends exactly the articles satisfying `_is_agriculture_related`. -/
def filter_relevant_articles (articles : List Article) : List Article :=
  articles.filter is_agriculture_related

example : is_agriculture_related ⟨"Wheat Prices Rise", "", "", "", ""⟩ = true := by decide
example : is_agriculture_related ⟨"", "", "x", "y", "z"⟩ = false := by decide
example : is_agriculture_related ⟨"Nothing here", "relevant at all", "", "", ""⟩ = false := by decide

/-! ### Substring search: correspondence with list decomposition -/

theorem matchesAt_iff (needle hay : List Char) :
    matchesAt hay needle = true ↔ ∃ t, hay = needle ++ t := by
  induction needle generalizing hay with
  | nil => simp [matchesAt]
  | cons b bs ih =>
    cases hay with
    | nil => simp [matchesAt]
    | cons a as =>
      simp only [matchesAt, Bool.and_eq_true, decide_eq_true_eq, ih, List.cons_append,
        List.cons.injEq]
      constructor
      · rintro ⟨rfl, t, rfl⟩; exact ⟨t, rfl, rfl⟩
      · rintro ⟨t, rfl, rfl⟩; exact ⟨rfl, t, rfl⟩

theorem hasSub_iff (needle hay : List Char) :
    hasSub hay needle = true ↔ ∃ s t, hay = s ++ needle ++ t := by
  induction hay with
  | nil =>
    rw [hasSub]
    simp only [Bool.or_false, matchesAt_iff]
    constructor
    · rintro ⟨t, h⟩; exact ⟨[], t, by simpa using h⟩
    · rintro ⟨s, t, h⟩
      rcases List.append_eq_nil.mp (List.append_eq_nil.mp h.symm).1 with ⟨rfl, rfl⟩
      exact ⟨t, by simpa using h⟩
  | cons a as ih =>
    rw [hasSub]
    simp only [Bool.or_eq_true, matchesAt_iff, ih]
    constructor
    · rintro (⟨t, h⟩ | ⟨s, t, h⟩)
      · exact ⟨[], t, by simpa using h⟩
      · exact ⟨a :: s, t, by simp [h]⟩
    · rintro ⟨s, t, h⟩
      cases s with
      | nil => exact Or.inl ⟨t, by simpa using h⟩
      | cons c s =>
        simp only [List.cons_append, List.cons.injEq] at h
        exact Or.inr ⟨s, t, h.2⟩

/-- If `needle` occurs in `mid` and `mid` occurs in `hay`, `needle` occurs in `hay`. -/
theorem hasSub_trans {hay mid needle : List Char}
    (h₁ : hasSub hay mid = true) (h₂ : hasSub mid needle = true) :
    hasSub hay needle = true := by
  rw [hasSub_iff] at h₁ h₂ ⊢
  obtain ⟨s₁, t₁, rfl⟩ := h₁
  obtain ⟨s₂, t₂, rfl⟩ := h₂
  exact ⟨s₁ ++ s₂, t₂ ++ t₁, by simp⟩

/-! ### Claims about the relevance filter -/

/-- **C1.** The relevance filter retains an article iff the keyword count over
the case-folded concatenation of title and summary is at least 2 or the
case-folded title alone contains at least 1 keyword; an article with empty
title and empty summary is rejected (whatever its other fields are). -/
theorem filter_retains_iff_keyword_threshold :
    (∀ (a : Article) (articles : List Article),
      a ∈ filter_relevant_articles articles ↔
        a ∈ articles ∧
          (2 ≤ keywordCount agriculture_keywords (pyLower (a.title ++ " " ++ a.summary)) ∨
           1 ≤ keywordCount agriculture_keywords (pyLower a.title))) ∧
    (∀ source link published : String,
      is_agriculture_related ⟨"", "", source, link, published⟩ = false) := by
  constructor
  · intro a articles
    simp [filter_relevant_articles, List.mem_filter, is_agriculture_related]
  · intro source link published
    rfl

/-- **C9.** The relevance filter is idempotent: filtering an already-filtered
list yields the same list. -/
theorem filter_relevant_articles_idempotent (articles : List Article) :
    filter_relevant_articles (filter_relevant_articles articles) =
      filter_relevant_articles articles := by
  simp [filter_relevant_articles, List.filter_filter]

/-- **C10.** Keyword matching is raw substring containment on the case-folded
text: any article whose (case-folded) title contains `"price"` is retained by
the relevance filter, because the keyword `"rice"` is a substring of
`"price"`. -/
theorem title_containing_price_is_retained
    (a : Article) (articles : List Article)
    (hprice : pyContains (pyLower a.title) "price" = true)
    (hmem : a ∈ articles) :
    a ∈ filter_relevant_articles articles := by
  have hrice : pyContains (pyLower a.title) "rice" = true := by
    have : hasSub "price".data "rice".data = true := by decide
    exact hasSub_trans hprice this
  have htitle : 1 ≤ keywordCount agriculture_keywords (pyLower a.title) := by
    have hmemk : "rice" ∈ agriculture_keywords.filter
        (fun k => pyContains (pyLower a.title) k) := by
      rw [List.mem_filter]
      exact ⟨by decide, hrice⟩
    exact List.length_pos_of_mem hmemk
  simp only [filter_relevant_articles]
  refine List.mem_filter.mpr ⟨hmem, ?_⟩
  simp only [is_agriculture_related, Bool.or_eq_true, decide_eq_true_eq]
  exact Or.inr htitle

/-- Witness for C10: a concrete article whose title contains `"price"` but no
whole-word agriculture term is retained. -/
theorem title_containing_price_is_retained_witness :
    (⟨"Stock price hits record", "", "", "", ""⟩ : Article) ∈
      filter_relevant_articles [⟨"Stock price hits record", "", "", "", ""⟩] :=
  title_containing_price_is_retained _ _ (by decide) (by decide)

/-! ### The local (fallback) ranker, `src/processor.py` lines 110-149 -/

/-- `DIGEST_CONFIG['max_total_articles']` from `src/config.py` (line 93). -/
def max_total_articles : Nat := 8

/-- The inner `calculate_score` of `ContentProcessor._fallback_rank_articles`
(`src/processor.py` lines 112-142). -/
def calculate_score (article : Article) : Nat :=
  let title := pyLower article.title
  let title_keywords := keywordCount agriculture_keywords title
  let s₁ := title_keywords * 3
  let summary := pyLower article.summary
  let summary_keywords := keywordCount agriculture_keywords summary
  let s₂ := s₁ + summary_keywords * 2
  let s₃ := if 100 < article.summary.length then s₂ + 1 else s₂
  let source := pyLower article.source
  if pyContains source "fastmarkets" then s₃ + 3
  else if pyContains source "apk" || pyContains source "margin" then s₃ + 2
  else if pyContains source "usda" then s₃ + 2
  else if pyContains source "reuters" || pyContains source "bloomberg" then s₃ + 1
  else s₃

/-- The comparison realised by Python's stable
`sorted(articles, key=calculate_score, reverse=True)`:
`a` may come before `b` iff `a`'s score is at least `b`'s. -/
def rankLE (a b : Article) : Bool := decide (calculate_score b ≤ calculate_score a)

/-- `ContentProcessor._fallback_rank_articles` with the configured cap made
explicit (`src/processor.py` lines 144-149): stable descending sort by score,
then truncation to the cap. -/
def fallback_rank_articles_cap (cap : Nat) (articles : List Article) : List Article :=
  (articles.mergeSort rankLE).take cap

/-- `ContentProcessor._fallback_rank_articles` as configured
(`max_articles = DIGEST_CONFIG.get('max_total_articles', 15)`, i.e. 8). -/
def fallback_rank_articles (articles : List Article) : List Article :=
  fallback_rank_articles_cap max_total_articles articles

theorem rankLE_trans (a b c : Article) (h₁ : rankLE a b) (h₂ : rankLE b c) : rankLE a c := by
  simp only [rankLE, decide_eq_true_eq] at *
  omega

theorem rankLE_total (a b : Article) : rankLE a b || rankLE b a := by
  simp only [rankLE, Bool.or_eq_true, decide_eq_true_eq]
  omega

/-- **C2.** The local ranker returns at most `cap` articles and at most as many
as it was given; every output article comes from the input; and when the input
fits under the cap the output is a permutation of the whole input (all articles
are returned). -/
theorem rank_output_bounded_subset (cap : Nat) (articles : List Article) :
    (fallback_rank_articles_cap cap articles).length ≤ cap ∧
    (fallback_rank_articles_cap cap articles).length ≤ articles.length ∧
    (∀ a ∈ fallback_rank_articles_cap cap articles, a ∈ articles) ∧
    (articles.length ≤ cap →
      (fallback_rank_articles_cap cap articles).Perm articles) := by
  have hperm := List.mergeSort_perm articles rankLE
  have hlen : (articles.mergeSort rankLE).length = articles.length := hperm.length_eq
  refine ⟨?_, ?_, ?_, ?_⟩
  · simp only [fallback_rank_articles_cap]
    exact List.length_take_le cap _
  · calc (fallback_rank_articles_cap cap articles).length
        ≤ (articles.mergeSort rankLE).length :=
          (List.take_sublist _ _).length_le
      _ = articles.length := hlen
  · intro a ha
    exact hperm.subset ((List.take_sublist _ _).subset ha)
  · intro hle
    have : (articles.mergeSort rankLE).take cap = articles.mergeSort rankLE :=
      List.take_of_length_le (by omega)
    simpa [fallback_rank_articles_cap, this] using hperm

/-- Witness for C2 at a concrete input. -/
theorem rank_output_bounded_subset_witness :
    (fallback_rank_articles_cap 2
      [⟨"a", "", "", "", ""⟩, ⟨"b", "", "", "", ""⟩]).Perm
      [⟨"a", "", "", "", ""⟩, ⟨"b", "", "", "", ""⟩] :=
  (rank_output_bounded_subset 2 _).2.2.2 (by decide)

/-- **C5.** The local ranker is a stable descending sort: scores are
non-increasing along the sorted list, any pair of equal-score articles keeps
its original relative order (as a pair sublist) in the sorted list of which
the output is the prefix of length `max_total_articles`, and ranking is a
pure function, so re-running it on the same input yields the same output. -/
theorem rank_stable_descending_deterministic (articles : List Article) :
    (articles.mergeSort rankLE).Pairwise
      (fun a b => calculate_score b ≤ calculate_score a) ∧
    (∀ a b : Article, List.Sublist [a, b] articles →
      calculate_score a = calculate_score b →
      List.Sublist [a, b] (articles.mergeSort rankLE)) ∧
    fallback_rank_articles articles =
      (articles.mergeSort rankLE).take max_total_articles ∧
    fallback_rank_articles articles = fallback_rank_articles articles := by
  refine ⟨?_, ?_, rfl, rfl⟩
  · have := @List.sorted_mergeSort Article rankLE rankLE_trans rankLE_total articles
    exact this.imp (fun h => by simpa [rankLE] using h)
  · intro a b hsub heq
    exact List.pair_sublist_mergeSort rankLE_trans rankLE_total
      (by simp [rankLE, heq]) hsub

/-- Witness for C5: two distinct equal-score articles keep their input order
in the sorted list. -/
theorem rank_stable_descending_deterministic_witness :
    List.Sublist [(⟨"a", "", "", "", ""⟩ : Article), ⟨"b", "", "", "", ""⟩]
      (([⟨"a", "", "", "", ""⟩, ⟨"b", "", "", "", ""⟩] :
        List Article).mergeSort rankLE) :=
  (rank_stable_descending_deterministic _).2.1 _ _ (by decide) (by decide)

/-- **C6.** The local ranker is total by construction (it is a Lean function);
the empty input yields the empty output, and a degenerate cap of zero yields
the empty output rather than a failure. -/
theorem rank_total_on_degenerate_inputs :
    (∀ cap : Nat, fallback_rank_articles_cap cap [] = []) ∧
    (∀ articles : List Article, fallback_rank_articles_cap 0 articles = []) ∧
    fallback_rank_articles [] = [] := by
  refine ⟨fun cap => ?_, fun articles => ?_, ?_⟩
  · simp [fallback_rank_articles_cap, List.mergeSort]
  · simp [fallback_rank_articles_cap]
  · simp [fallback_rank_articles, fallback_rank_articles_cap, List.mergeSort]

/-! ### The importance scorer of `LLMService._intelligent_rank_articles`,
`src/llm_service.py` lines 85-150 -/

/-- `high_impact_keywords` (`src/llm_service.py` lines 94-99). -/
def high_impact_keywords : List String :=
  ["цена", "price", "рост", "rise", "падение", "fall", "кризис", "crisis",
   "экспорт", "export", "импорт", "import", "торговля", "trade",
   "засуха", "drought", "наводнение", "flood", "погода", "weather",
   "политика", "policy", "закон", "law", "регулирование", "regulation"]

/-- `commodity_keywords` (`src/llm_service.py` lines 102-105). -/
def commodity_keywords : List String :=
  ["пшеница", "wheat", "кукуруза", "corn", "соя", "soybean", "рис", "rice",
   "ячмень", "barley", "рожь", "rye", "овес", "oats", "хлопок", "cotton"]

/-- `source_scores` (`src/llm_service.py` lines 108-114), in insertion order;
the loop over its items takes the first matching entry and breaks. -/
def source_scores : List (String × Nat) :=
  [("fastmarkets", 5), ("apk", 4), ("margin", 4), ("eldala", 3), ("amis", 3)]

/-- The inner `calculate_importance_score` of
`LLMService._intelligent_rank_articles` (`src/llm_service.py` lines 87-143).
Each keyword loop adds points for a title hit and for a summary hit
independently; the source loop adds the first matching credibility bonus. -/
def calculate_importance_score (article : Article) : Nat :=
  let title := pyLower article.title
  let summary := pyLower article.summary
  let source := pyLower article.source
  let s₁ := high_impact_keywords.foldl
    (fun s k =>
      let s := if pyContains title k then s + 3 else s
      if pyContains summary k then s + 2 else s) 0
  let s₂ := commodity_keywords.foldl
    (fun s k =>
      let s := if pyContains title k then s + 2 else s
      if pyContains summary k then s + 1 else s) s₁
  let s₃ := match source_scores.find? (fun p => pyContains source p.1) with
    | some p => s₂ + p.2
    | none => s₂
  let s₄ := if 100 < summary.length then s₃ + 1 else s₃
  if article.published = "" then s₄ else s₄ + 1

/-- Modelled from the spec (claim C7): "+3 per high-impact keyword
(price/trade/policy/weather category) found in title, +2 if found in summary
only" — i.e. the +2 applies to a high-impact keyword only when it occurs in
the summary and not in the title.  All other scoring components as in the
code.  For comparison with `calculate_importance_score`. -/
def claim_importance_score (article : Article) : Nat :=
  let title := pyLower article.title
  let summary := pyLower article.summary
  let source := pyLower article.source
  let s₁ := high_impact_keywords.foldl
    (fun s k =>
      let s := if pyContains title k then s + 3 else s
      if pyContains summary k && !pyContains title k then s + 2 else s) 0
  let s₂ := commodity_keywords.foldl
    (fun s k =>
      let s := if pyContains title k then s + 2 else s
      if pyContains summary k then s + 1 else s) s₁
  let s₃ := match source_scores.find? (fun p => pyContains source p.1) with
    | some p => s₂ + p.2
    | none => s₂
  let s₄ := if 100 < summary.length then s₃ + 1 else s₃
  if article.published = "" then s₄ else s₄ + 1

/-- A keyword loop that adds `tp` per title hit and `sp` per summary hit
equals `tp`/`sp` times the respective keyword counts. -/
theorem foldl_keyword_score (title summary : String) (tp sp : Nat) :
    ∀ (kws : List String) (init : Nat),
    kws.foldl
      (fun s k =>
        let s := if pyContains title k then s + tp else s
        if pyContains summary k then s + sp else s) init
    = init + tp * keywordCount kws title + sp * keywordCount kws summary := by
  intro kws
  induction kws with
  | nil => intro init; simp [keywordCount]
  | cons k kws ih =>
    intro init
    simp only [List.foldl_cons, ih, keywordCount, List.filter_cons]
    by_cases h₁ : pyContains title k = true <;>
      by_cases h₂ : pyContains summary k = true <;>
        simp [h₁, h₂, keywordCount] <;> ring

/-- **C7 (counterexample).** For the article with title `"trade"` and summary
`"trade"`, the only matching high-impact keyword, `"trade"`, occurs in both
title and summary; the code scores the article 5 (= 3 + 2), while the
claim's summary-only rule would score it 3 — so the code does not implement
the "+2 only if found in summary only" rule. -/
theorem importance_score_counterexample :
    calculate_importance_score ⟨"trade", "trade", "", "", ""⟩ = 5 ∧
    claim_importance_score ⟨"trade", "trade", "", "", ""⟩ = 3 ∧
    calculate_importance_score ⟨"trade", "trade", "", "", ""⟩ ≠
      claim_importance_score ⟨"trade", "trade", "", "", ""⟩ := by
  refine ⟨by decide, by decide, by decide⟩

/-- **C7 (amended).** The scoring rule adds +3 for each high-impact keyword
found in the title and +2 for each high-impact keyword found in the summary,
the two contributions being independent (a keyword occurring in both
contributes 3 + 2 = 5); likewise +2/+1 for commodity keywords, plus the first
matching source-credibility bonus, the length bonus and the published bonus. -/
theorem importance_score_decomposition (article : Article) :
    calculate_importance_score article =
      3 * keywordCount high_impact_keywords (pyLower article.title)
      + 2 * keywordCount high_impact_keywords (pyLower article.summary)
      + 2 * keywordCount commodity_keywords (pyLower article.title)
      + 1 * keywordCount commodity_keywords (pyLower article.summary)
      + ((source_scores.find?
            (fun p => pyContains (pyLower article.source) p.1)).map Prod.snd).getD 0
      + (if 100 < (pyLower article.summary).length then 1 else 0)
      + (if article.published = "" then 0 else 1) := by
  simp only [calculate_importance_score, foldl_keyword_score]
  rcases h : source_scores.find? (fun p => pyContains (pyLower article.source) p.1) with
    _ | p <;>
    by_cases h₁ : 100 < (pyLower article.summary).length <;>
      by_cases h₂ : article.published = "" <;>
        simp [h, h₁, h₂]

/-- **C8.** The importance score adds exactly +1 when the `published` field is
non-empty and nothing otherwise: changing `published` from empty to any
non-empty value raises the score by exactly 1 and changes nothing else. -/
theorem importance_score_published_bonus (article : Article) (p : String) :
    calculate_importance_score { article with published := p } =
      calculate_importance_score { article with published := "" }
        + (if p = "" then 0 else 1) := by
  by_cases hp : p = "" <;> simp [calculate_importance_score, hp]

/-! ### The fallback categorizer, `src/processor.py` lines 213-268 -/

/-- Keyword lists of `_categorize_article` (`src/processor.py` lines 239-264). -/
def crop_keywords : List String :=
  ["crop", "wheat", "corn", "soybean", "rice", "cotton", "sugar", "coffee",
   "grain", "seed", "harvest", "planting"]

def livestock_keywords : List String :=
  ["livestock", "cattle", "pig", "poultry", "chicken", "dairy", "milk", "beef",
   "pork", "sheep", "goat"]

def tech_keywords : List String :=
  ["technology", "agtech", "precision", "drone", "ai", "artificial intelligence",
   "automation", "digital", "smart farming"]

def market_keywords : List String :=
  ["market", "price", "commodity", "trade", "export", "import", "futures",
   "trading", "supply", "demand"]

def policy_keywords : List String :=
  ["policy", "regulation", "government", "subsidy", "law", "bill", "congress",
   "senate", "fda", "usda"]

def weather_keywords : List String :=
  ["weather", "climate", "drought", "flood", "rain", "temperature",
   "environment", "sustainability", "carbon"]

/-- `ContentProcessor._categorize_article` (`src/processor.py` lines 234-268):
the first category in the fixed order whose keyword list matches the combined
case-folded title+summary text, or `"Other"`. -/
def categorize_article (article : Article) : String :=
  let text := pyLower (article.title ++ " " ++ article.summary)
  if crop_keywords.any (fun k => pyContains text k) then "Crops & Commodities"
  else if livestock_keywords.any (fun k => pyContains text k) then "Livestock & Dairy"
  else if tech_keywords.any (fun k => pyContains text k) then "Technology & Innovation"
  else if market_keywords.any (fun k => pyContains text k) then "Market & Trade"
  else if policy_keywords.any (fun k => pyContains text k) then "Policy & Regulation"
  else if weather_keywords.any (fun k => pyContains text k) then "Weather & Environment"
  else "Other"

/-- The keys of the `topics` dict of `_fallback_group_articles_by_topic`
(`src/processor.py` lines 215-223), in insertion order. -/
def topic_labels : List String :=
  ["Crops & Commodities", "Livestock & Dairy", "Technology & Innovation",
   "Market & Trade", "Policy & Regulation", "Weather & Environment", "Other"]

/-- `topics[topic].append(article)`: append `article` to the bucket keyed
`key` of the association list `m`. -/
def addToTopic (m : List (String × List Article)) (key : String) (article : Article) :
    List (String × List Article) :=
  m.map (fun p => if p.1 = key then (p.1, p.2 ++ [article]) else p)

/-- `ContentProcessor._fallback_group_articles_by_topic`
(`src/processor.py` lines 213-232): start from the empty buckets in fixed key
order, append each article to the bucket of its category, drop empty buckets.
A Python dict with string keys is modelled as an association list in
insertion order. -/
def fallback_group_articles_by_topic (articles : List Article) :
    List (String × List Article) :=
  let topics := topic_labels.map (fun k => (k, ([] : List Article)))
  let filled := articles.foldl (fun m a => addToTopic m (categorize_article a) a) topics
  filled.filter (fun p => !p.2.isEmpty)

/-- The categorizer always answers one of the seven fixed labels. -/
theorem categorize_article_mem_topic_labels (article : Article) :
    categorize_article article ∈ topic_labels := by
  simp only [categorize_article]
  split
  · decide
  split
  · decide
  split
  · decide
  split
  · decide
  split
  · decide
  split
  · decide
  decide

/-- Folding the append loop over the articles fills each bucket with exactly
the articles of its category, in input order. -/
theorem foldl_addToTopic (articles : List Article) :
    ∀ m : List (String × List Article),
    articles.foldl (fun m a => addToTopic m (categorize_article a) a) m
      = m.map (fun p =>
          (p.1, p.2 ++ articles.filter (fun a => categorize_article a = p.1))) := by
  induction articles with
  | nil => intro m; simp
  | cons a articles ih =>
    intro m
    rw [List.foldl_cons, ih]
    simp only [addToTopic, List.map_map]
    apply List.map_congr_left
    intro p _
    simp only [Function.comp_apply]
    by_cases h : p.1 = categorize_article a
    · have hpred : (decide (categorize_article a = p.1)) = true := by
        simp [h]
      simp [if_pos h, List.filter_cons, hpred, List.append_assoc]
    · have hpred : (decide (categorize_article a = p.1)) = false := by
        simp only [decide_eq_false_iff_not]
        exact fun hh => h hh.symm
      simp [if_neg h, List.filter_cons, hpred]

/-- The grouped buckets, explicitly: one bucket per label with members in
input order, empty buckets dropped. -/
theorem fallback_group_articles_by_topic_eq (articles : List Article) :
    fallback_group_articles_by_topic articles
      = (topic_labels.map (fun k =>
          (k, articles.filter (fun a => categorize_article a = k)))).filter
            (fun p => !p.2.isEmpty) := by
  simp only [fallback_group_articles_by_topic]
  rw [foldl_addToTopic, List.map_map]
  refine congrArg (List.filter _) (List.map_congr_left ?_)
  intro k _
  simp

/-- Flattening one label's bucket of `a :: articles`, over a label list that
contains `a`'s category exactly once, yields `a` prepended to the flattening
over `articles`, up to permutation. -/
theorem flatten_buckets_cons (a : Article) (articles : List Article) :
    ∀ ks : List String, ks.Nodup → categorize_article a ∈ ks →
    ((ks.map (fun k => (a :: articles).filter
        (fun x => categorize_article x = k))).flatten).Perm
      (a :: (ks.map (fun k => articles.filter
        (fun x => categorize_article x = k))).flatten) := by
  intro ks
  induction ks with
  | nil => intro _ h; cases h
  | cons k ks ih =>
    intro hnd hmem
    have hnd' : ks.Nodup := (List.nodup_cons.mp hnd).2
    by_cases hk : categorize_article a = k
    · have hnotin : categorize_article a ∉ ks := by
        rw [hk]; exact (List.nodup_cons.mp hnd).1
      have htail : ∀ k' ∈ ks,
          (a :: articles).filter (fun x => categorize_article x = k')
            = articles.filter (fun x => categorize_article x = k') := by
        intro k' hk'
        have hne : ¬(categorize_article a = k') := fun hh => hnotin (hh ▸ hk')
        simp [List.filter_cons, hne]
      have hmap : ks.map (fun k' => (a :: articles).filter
            (fun x => categorize_article x = k'))
          = ks.map (fun k' => articles.filter
            (fun x => categorize_article x = k')) :=
        List.map_congr_left htail
      have hfc : (a :: articles).filter (fun x => categorize_article x = k)
          = a :: articles.filter (fun x => categorize_article x = k) := by
        simp [List.filter_cons, hk]
      rw [List.map_cons, List.flatten_cons, hmap, hfc, List.cons_append,
        List.map_cons, List.flatten_cons]
    · have hmem' : categorize_article a ∈ ks := by
        rcases List.mem_cons.mp hmem with h | h
        · exact absurd h hk
        · exact h
      have hhead : (a :: articles).filter (fun x => categorize_article x = k)
          = articles.filter (fun x => categorize_article x = k) := by
        simp [List.filter_cons, hk]
      rw [List.map_cons, List.flatten_cons, hhead, List.map_cons,
        List.flatten_cons]
      exact List.Perm.trans
        (List.Perm.append_left _ (ih hnd' hmem')) List.perm_middle

/-- Flattening all buckets over the fixed label list gives back the input,
up to permutation. -/
theorem flatten_buckets_perm :
    ∀ articles : List Article,
    ((topic_labels.map (fun k => articles.filter
        (fun a => categorize_article a = k))).flatten).Perm articles := by
  intro articles
  induction articles with
  | nil => simp
  | cons a articles ih =>
    have h := flatten_buckets_cons a articles topic_labels (by decide)
      (categorize_article_mem_topic_labels a)
    exact h.trans (ih.cons a)

/-- Dropping empty buckets does not change the flattening. -/
theorem flatten_filter_nonempty (l : List (String × List Article)) :
    ((l.filter (fun p => !p.2.isEmpty)).map Prod.snd).flatten
      = (l.map Prod.snd).flatten := by
  induction l with
  | nil => rfl
  | cons p l ih =>
    by_cases h : p.2.isEmpty
    · have hnil : p.2 = [] := by
        cases hp : p.2 with
        | nil => rfl
        | cons x xs => rw [hp] at h; simp [List.isEmpty] at h
      simp [List.filter_cons, h, ih, hnil]
    · simp [List.filter_cons, h, ih]

/-- **C3.** The categorizer partitions its input: every bucket is labelled by
one of the fixed categories and holds exactly the input articles whose first
matching category is that label; no bucket is empty; distinct buckets are
disjoint (no article object appears in two buckets); and the buckets together
contain exactly the input articles (up to order). -/
theorem categorizer_partitions (articles : List Article) :
    (∀ p ∈ fallback_group_articles_by_topic articles,
      p.1 ∈ topic_labels ∧
      p.2 = articles.filter (fun a => categorize_article a = p.1) ∧
      p.2 ≠ []) ∧
    (∀ p ∈ fallback_group_articles_by_topic articles,
      ∀ q ∈ fallback_group_articles_by_topic articles,
      p ≠ q → ∀ a ∈ p.2, a ∉ q.2) ∧
    (((fallback_group_articles_by_topic articles).map Prod.snd).flatten).Perm
      articles := by
  have heq := fallback_group_articles_by_topic_eq articles
  have hbucket : ∀ p ∈ fallback_group_articles_by_topic articles,
      p.1 ∈ topic_labels ∧
      p.2 = articles.filter (fun a => categorize_article a = p.1) ∧
      p.2 ≠ [] := by
    intro p hp
    rw [heq] at hp
    have hp' := List.mem_of_mem_filter hp
    have hne := List.of_mem_filter hp
    obtain ⟨k, hk, hpk⟩ := List.mem_map.mp hp'
    refine ⟨?_, ?_, ?_⟩
    · rw [← hpk]; exact hk
    · rw [← hpk]
    · intro hnil
      rw [hnil] at hne
      simp at hne
  refine ⟨hbucket, ?_, ?_⟩
  · intro p hp q hq hpq a hap haq
    obtain ⟨_, hpf, _⟩ := hbucket p hp
    obtain ⟨_, hqf, _⟩ := hbucket q hq
    have h₁ : categorize_article a = p.1 := by
      rw [hpf] at hap
      simpa using List.of_mem_filter hap
    have h₂ : categorize_article a = q.1 := by
      rw [hqf] at haq
      simpa using List.of_mem_filter haq
    have hkey : p.1 = q.1 := h₁ ▸ h₂
    apply hpq
    have hsnd : p.2 = q.2 := by rw [hpf, hqf, hkey]
    exact Prod.ext hkey hsnd
  · rw [heq, flatten_filter_nonempty, List.map_map]
    simpa [Function.comp_def] using flatten_buckets_perm articles

/-- Witness for C3: on a concrete two-article input the crop article does not
appear in the livestock bucket. -/
theorem categorizer_partitions_witness :
    (⟨"wheat harvest", "", "", "", ""⟩ : Article) ∉
      (("Livestock & Dairy",
        [(⟨"cattle dairy", "", "", "", ""⟩ : Article)]) : String × List Article).2 :=
  (categorizer_partitions
      [⟨"wheat harvest", "", "", "", ""⟩, ⟨"cattle dairy", "", "", "", ""⟩]).2.1
    ("Crops & Commodities", [⟨"wheat harvest", "", "", "", ""⟩]) (by decide)
    ("Livestock & Dairy", [⟨"cattle dairy", "", "", "", ""⟩]) (by decide)
    (by decide) ⟨"wheat harvest", "", "", "", ""⟩ (by decide)

/-! ### The fallback digest formatter, `src/processor.py` lines 293-343

Embedded under the default configuration: `LANGUAGE = 'ru'` (so
`is_russian = True`), `DIGEST_CONFIG['include_source_links'] = True`.  The
current date string (`datetime.now().strftime('%d.%m.%Y')`) and the
summarization collaborator (`await self.summarize_article(article)`) are
passed as parameters; with the LLM unavailable the collaborator is
`fun a => ""` (`_fallback_summarize_article` returns the empty string). -/

/-- `DIGEST_CONFIG['digest_title_ru']` from `src/config.py` line 99,
reproduced character for character. -/
def digest_title_ru : String := "üåæ –î–∞–π–¥–∂–µ—Å—Ç —Å–µ–ª—å—Å–∫–æ—Ö–æ–∑—è–π—Å—Ç–≤–µ–Ω–Ω–æ–≥–æ —Ä—ã–Ω–∫–∞"

/-- The per-article loop of `_fallback_format_digest`
(`src/processor.py` lines 308-332), Russian branch: `i` is the 1-based
`enumerate` counter. -/
def digest_entries (summarize : Article → String) : Nat → List Article → String
  | _, [] => ""
  | i, article :: rest =>
    let title := article.title
    let summary := summarize article
    let e₁ := "**" ++ toString i ++ ". " ++ title ++ "**\n"
    let e₂ :=
      if !summary.isEmpty && decide (20 < summary.length) then summary ++ "\n"
      else "Описание недоступно (требуется ИИ).\n"
    let e₃ :=
      if !article.link.isEmpty then
        "🔗 [Читать полностью](" ++ article.link ++ ")\n"
      else ""
    e₁ ++ e₂ ++ e₃ ++ "\n" ++ digest_entries summarize (i + 1) rest

/-- `ContentProcessor._fallback_format_digest`
(`src/processor.py` lines 293-343), Russian branch: header with article and
distinct-source counts, at most 8 numbered entries, fixed footer. -/
def fallback_format_digest (summarize : Article → String) (dateStr : String)
    (articles : List Article) : String :=
  let header := digest_title_ru ++ " - " ++ dateStr ++ "\n\n"
    ++ "📊 **" ++ toString articles.length ++ " статей** из "
    ++ toString ((articles.map (fun a => a.source)).eraseDups).length
    ++ " источников\n\n"
  let body := digest_entries summarize 1 (articles.take 8)
  let footer := "---\n"
    ++ "🤖 Создано ботом Agriculture Digest\n"
    ++ "📅 Обновляется ежедневно с последними новостями сельскохозяйственного рынка"
  header ++ body ++ footer

/-- **C4 (divergence).** With the summarization collaborator always returning
the empty string, the formatter does render every article's title line, but
it does not omit the summary line: it emits the fixed placeholder line
`Описание недоступно (требуется ИИ).` for each entry — contradicting the
claim (and the code's own comment `# If no AI summary, skip description`)
that the line is omitted entirely. -/
theorem format_digest_emits_placeholder :
    hasSub (fallback_format_digest (fun _ => "") "01.01.2025"
        [⟨"Wheat prices rise", "", "TestWire", "", ""⟩]).data
      "**1. Wheat prices rise**\n".data = true ∧
    hasSub (fallback_format_digest (fun _ => "") "01.01.2025"
        [⟨"Wheat prices rise", "", "TestWire", "", ""⟩]).data
      "Описание недоступно (требуется ИИ).\n".data = true := by
  constructor
  · decide
  · decide

end AgriDigest
